import Mathlib

/-!
Verification of the "Floor is Lava" core pipeline.

Shallow embedding of the repository's core components:
* `mapping.py` / `robust_mapping.py` — pixel → grid coordinate mappers
  (floats idealised as exact rationals, the `1e-9` homogeneous-division
  guard kept as the exact rational `1/1000000000`);
* `smoothing.py` — the per-(player, foot) debounce state machine;
* `tracker.py` — the multi-person greedy centroid tracker (Euclidean
  distances represented by their squares, which is order-isomorphic, so
  the distance threshold is stored squared as `max_distance_sq`);
* `robust_server.py` — hazard-set mutation, demo auto-fill (randomness
  injected as an explicit stream of naturals, reduced mod the grid extent
  exactly as `random.randrange` bounds its result), and the per-tick
  collision check with its global cooldown.
-/

namespace FloorIsLava

/-- A 3×3 projective transform (the homography loaded from
`homography.npy`), entries as exact rationals. -/
structure Homography where
  h00 : ℚ
  h01 : ℚ
  h02 : ℚ
  h10 : ℚ
  h11 : ℚ
  h12 : ℚ
  h20 : ℚ
  h21 : ℚ
  h22 : ℚ
deriving DecidableEq

/-- The identity transform (used by the repository's mapping test). -/
def idH : Homography := ⟨1, 0, 0, 0, 1, 0, 0, 0, 1⟩

/-- `np.clip(v, lo, hi)` on rationals: `min (max v lo) hi`. -/
def npClip (v lo hi : ℚ) : ℚ := min (max v lo) hi

/-- `np.clip` on integers. -/
def intClip (v lo hi : Int) : Int := min (max v lo) hi

/-- Apply the homography to pixel `(x, y)`: `world = H.dot([x, y, 1])`,
`world /= world[2] + 1e-9`, and return `(row, col) = (world[1], world[0])`,
exactly as both mappers' `pixel_to_grid_float` bodies do. -/
def rawGridCoord (H : Homography) (x y : ℚ) : ℚ × ℚ :=
  let w := H.h20 * x + H.h21 * y + H.h22 + 1 / 1000000000
  ((H.h10 * x + H.h11 * y + H.h12) / w, (H.h00 * x + H.h01 * y + H.h02) / w)

/-- The state a mapper is constructed with: an optional transform plus the
grid extent from `grid_config.json` (defaults 8×8). -/
structure Mapper where
  H : Option Homography
  rows : Nat
  cols : Nat
deriving DecidableEq

/-- `mapping.py` `PixelToGridMapper.pixel_to_grid_float`: sentinel
`(-1, -1)` when no transform is loaded, else the raw (unclamped)
grid coordinate `(row, col)`. -/
def pixel_to_grid_float (m : Mapper) (x y : ℚ) : ℚ × ℚ :=
  match m.H with
  | Option.none => (-1, -1)
  | Option.some H => rawGridCoord H x y

/-- `robust_mapping.py` `RobustPixelToGridMapper.pixel_to_grid_float`:
sentinel `(-1, -1)` when no transform is loaded, else the grid coordinate
clamped into `[0, rows] × [0, cols]`. -/
def robust_pixel_to_grid_float (m : Mapper) (x y : ℚ) : ℚ × ℚ :=
  match m.H with
  | Option.none => (-1, -1)
  | Option.some H =>
    let rc := rawGridCoord H x y
    (npClip rc.1 0 m.rows, npClip rc.2 0 m.cols)

/-- Shared cell computation of both `pixel_to_grid_cell` methods: floor the
continuous coordinate, clamp into `[0, rows-1] × [0, cols-1]`, and flag
`outside` when the continuous coordinate is out of `[0, rows) × [0, cols)`. -/
def cellFromFloat (rows cols : Nat) (rf cf : ℚ) : Int × Int × Bool :=
  (intClip rf.floor 0 ((rows : Int) - 1),
   intClip cf.floor 0 ((cols : Int) - 1),
   decide (rf < 0 ∨ cf < 0 ∨ (rows : ℚ) ≤ rf ∨ (cols : ℚ) ≤ cf))

/-- `mapping.py` `PixelToGridMapper.pixel_to_grid_cell`. -/
def pixel_to_grid_cell (m : Mapper) (x y : ℚ) : Int × Int × Bool :=
  let rc := pixel_to_grid_float m x y
  cellFromFloat m.rows m.cols rc.1 rc.2

/-- `robust_mapping.py` `RobustPixelToGridMapper.pixel_to_grid_cell`. -/
def robust_pixel_to_grid_cell (m : Mapper) (x y : ℚ) : Int × Int × Bool :=
  let rc := robust_pixel_to_grid_float m x y
  cellFromFloat m.rows m.cols rc.1 rc.2

/-! ## smoothing.py — LavaSmoother -/

/-- The per-`(player_id, foot)` entry of `LavaSmoother.state`. -/
structure SmoothState where
  last_frame : Nat
  lava_run : Nat
  safe_run : Nat
  is_on_lava : Bool
  last_cell : Int × Int
deriving DecidableEq

/-- The dictionary entry `observe` creates on first sight of a key. -/
def initSmoothState (frame : Nat) (row col : Int) : SmoothState :=
  ⟨frame, 0, 0, false, (row, col)⟩

/-- `smoothing.py` `LavaSmoother.observe`, acting on the state of one
`(player_id, foot)` key: record the cell and frame, bump the run counter of
the observed sign and zero the other, trigger when idle and the lava run
reaches `k`, then clear when flagged, safe, and the safe run reaches `m`.
Returns the updated state and the `triggered` result. -/
def observe (k m : Nat) (frame : Nat) (row col : Int) (s : SmoothState) (is_lava : Bool) :
    SmoothState × Bool :=
  let s1 := { s with last_cell := (row, col), last_frame := frame }
  let s2 := if is_lava
    then { s1 with lava_run := s1.lava_run + 1, safe_run := 0 }
    else { s1 with safe_run := s1.safe_run + 1, lava_run := 0 }
  let p := if is_lava && !s2.is_on_lava && decide (k ≤ s2.lava_run)
    then ({ s2 with is_on_lava := true }, true)
    else (s2, false)
  let s4 := if p.1.is_on_lava && !is_lava && decide (m ≤ p.1.safe_run)
    then { p.1 with is_on_lava := false }
    else p.1
  (s4, p.2)

/-- The repository's smoothing-test harness: starting from a fresh smoother,
call `next_frame` then `observe(1, 'left', 2, 3, b)` for each `b`, collecting
`(final state, final frame index, trigger outputs)`. -/
def runObserve (k m : Nat) (l : List Bool) : SmoothState × Nat × List Bool :=
  l.foldl (fun acc b =>
    let fr := acc.2.1 + 1
    let r := observe k m fr 2 3 acc.1 b
    (r.1, fr, acc.2.2 ++ [r.2]))
    (initSmoothState 0 2 3, 0, [])

/-- The trigger outputs of a run of the smoothing-test harness. -/
def triggerSeq (k m : Nat) (l : List Bool) : List Bool := (runObserve k m l).2.2

/-- Invariant of the debouncer: while not flagged on lava, the lava run is
still below the threshold. -/
abbrev smoothInv (k : Nat) (s : SmoothState) : Prop := s.is_on_lava = false → s.lava_run < k

/-! ## tracker.py — MultiPersonTracker

Euclidean distances are represented by their squares (the square root is
strictly monotone on nonnegatives, so `argsort`, `argmin` and the
`max_distance` threshold test are unchanged provided the threshold is also
stored squared, as `max_distance_sq`). `numpy.argsort`'s unspecified tie
order is modelled as a stable insertion sort. Python's parallel dicts
`objects`/`disappeared` (always holding the same keys in the same insertion
order) are merged into one insertion-ordered list of entries. -/

/-- One detection: the two labelled foot samples' pixel positions
(confidence scores play no role in the tracker's arithmetic). -/
structure Detection where
  left_pixel : ℚ × ℚ
  right_pixel : ℚ × ℚ
deriving DecidableEq

/-- `MultiPersonTracker._get_centroid`: midpoint of the two foot pixels. -/
def detCentroid (d : Detection) : ℚ × ℚ :=
  ((d.left_pixel.1 + d.right_pixel.1) / 2, (d.left_pixel.2 + d.right_pixel.2) / 2)

/-- Squared Euclidean distance. -/
def sqDist (a b : ℚ × ℚ) : ℚ := (a.1 - b.1) * (a.1 - b.1) + (a.2 - b.2) * (a.2 - b.2)

/-- One live track: id, last matched detection, centroid, and the
`disappeared` (frames-since-seen) counter. -/
structure TrackEntry where
  id : Nat
  last_det : Detection
  centroid : ℚ × ℚ
  disappeared : Nat
deriving DecidableEq

/-- The tracker's whole state. -/
structure TrackerState where
  next_id : Nat
  tracks : List TrackEntry
  max_disappeared : Nat
  max_distance_sq : ℚ
deriving DecidableEq

/-- `MultiPersonTracker.__init__`. -/
def initTracker (maxDis : Nat) (maxSq : ℚ) : TrackerState := ⟨0, [], maxDis, maxSq⟩

/-- The zero-detections branch of `update`: every counter is incremented and
entries whose new counter exceeds `max_disappeared` are deregistered. -/
def ageAll (maxDis : Nat) : List TrackEntry → List TrackEntry
  | [] => []
  | e :: rest =>
    if maxDis < e.disappeared + 1 then ageAll maxDis rest
    else { e with disappeared := e.disappeared + 1 } :: ageAll maxDis rest

/-- `detections[c]` (indices fed to it are always in range). -/
def detAt (dets : List Detection) (c : Nat) : Detection := dets.getD c ⟨(0, 0), (0, 0)⟩

/-- A track entry absorbing its matched detection `c`: it takes the
detection and its centroid, and its counter resets to 0. -/
def matchedEntry (dets : List Detection) (c : Nat) (e : TrackEntry) : TrackEntry :=
  { e with last_det := detAt dets c, centroid := detCentroid (detAt dets c),
           disappeared := 0 }

/-- Apply the matched `(row, col)` pairs: the track at position `row` takes
detection `col`'s data and its counter resets to 0; other tracks are left
untouched. `i` is the position of the list head. -/
def applyMatchesAux (pairs : List (Nat × Nat)) (dets : List Detection) :
    Nat → List TrackEntry → List TrackEntry
  | _, [] => []
  | i, e :: rest =>
    (match List.lookup i pairs with
     | Option.some c => matchedEntry dets c e
     | Option.none => e) :: applyMatchesAux pairs dets (i + 1) rest

/-- The `D.shape[0] >= D.shape[1]` branch of `update`: each unmatched track's
counter is incremented and it is deregistered once the counter exceeds
`max_disappeared`; matched tracks pass through. `i` is the head's position. -/
def ageUnmatchedAux (matchedRows : List Nat) (maxDis : Nat) :
    Nat → List TrackEntry → List TrackEntry
  | _, [] => []
  | i, e :: rest =>
    if matchedRows.contains i then e :: ageUnmatchedAux matchedRows maxDis (i + 1) rest
    else if maxDis < e.disappeared + 1 then ageUnmatchedAux matchedRows maxDis (i + 1) rest
    else { e with disappeared := e.disappeared + 1 } ::
      ageUnmatchedAux matchedRows maxDis (i + 1) rest

/-- `MultiPersonTracker._register`: the detection becomes a new track under
the current `next_id`, which is then incremented; the counter starts at 0. -/
def registerOne (s : TrackerState) (d : Detection) : TrackerState :=
  { s with next_id := s.next_id + 1,
           tracks := s.tracks ++ [⟨s.next_id, d, detCentroid d, 0⟩] }

/-- `_register` folded over a list of detections. -/
def registerDets (st : TrackerState) (ds : List Detection) : TrackerState :=
  ds.foldl registerOne st

/-- Stable insertion of index `i` into an index list sorted ascending by
`key` (equal keys keep the earlier index first, matching a stable argsort). -/
def insertSorted (key : Nat → ℚ) (i : Nat) : List Nat → List Nat
  | [] => [i]
  | j :: rest => if key j < key i then j :: insertSorted key i rest else i :: j :: rest

/-- Stable sort of an index list ascending by `key` (models `argsort`). -/
def sortIdx (key : Nat → ℚ) : List Nat → List Nat
  | [] => []
  | i :: rest => insertSorted key i (sortIdx key rest)

/-- First index attaining the minimum of the remaining values, given the
best index/value so far (models `numpy.argmin`'s first-minimum rule). -/
def argminList : List ℚ → Nat → Nat → ℚ → Nat
  | [], _, bi, _ => bi
  | v :: rest, idx, bi, bv =>
    if v < bv then argminList rest (idx + 1) idx v
    else argminList rest (idx + 1) bi bv

/-- Row `i` of the distance matrix, as a list over the `n` detection columns. -/
def rowVals (D : Nat → Nat → ℚ) (i n : Nat) : List ℚ := (List.range n).map (D i)

/-- `D.argmin(axis=1)` for row `i`. -/
def rowArgmin (D : Nat → Nat → ℚ) (i n : Nat) : Nat :=
  match rowVals D i n with
  | [] => 0
  | v :: rest => argminList rest 1 0 v

/-- `D.min(axis=1)` for row `i`. -/
def rowMin (D : Nat → Nat → ℚ) (i n : Nat) : ℚ :=
  match rowVals D i n with
  | [] => 0
  | v :: rest => rest.foldl min v

/-- The greedy assignment loop of `update`: walk rows in `order`, pair each
with its argmin column, skipping already-used rows/columns and pairs beyond
the distance threshold. -/
def greedyLoop (D : Nat → Nat → ℚ) (maxSq : ℚ) (colOf : Nat → Nat) :
    List Nat → List Nat → List Nat → List (Nat × Nat)
  | [], _, _ => []
  | r :: rest, usedR, usedC =>
    let c := colOf r
    if usedR.contains r || usedC.contains c then greedyLoop D maxSq colOf rest usedR usedC
    else if maxSq < D r c then greedyLoop D maxSq colOf rest usedR usedC
    else (r, c) :: greedyLoop D maxSq colOf rest (r :: usedR) (c :: usedC)

/-- The whole matching step of `update`: distance matrix between track
centroids and detection centroids, rows sorted by their row minimum, each
row paired with its argmin column, then the greedy loop. -/
def greedyMatch (tracks : List TrackEntry) (dets : List Detection) (maxSq : ℚ) :
    List (Nat × Nat) :=
  let ocs := tracks.map (fun e => e.centroid)
  let dcs := dets.map detCentroid
  let D := fun i j => sqDist (ocs.getD i (0, 0)) (dcs.getD j (0, 0))
  let order := sortIdx (fun i => rowMin D i dets.length) (List.range tracks.length)
  greedyLoop D maxSq (fun i => rowArgmin D i dets.length) order [] []

/-- The unmatched detection columns (`unused_cols`), ascending. -/
def unmatchedDetIdxs (pairs : List (Nat × Nat)) (nDet : Nat) : List Nat :=
  (List.range nDet).filter (fun c => !((pairs.map Prod.snd).contains c))

/-- `MultiPersonTracker.update`:
zero detections → age everyone; no live tracks → register everything;
otherwise greedy-match, then age unmatched tracks when there are at least as
many tracks as detections, else register the unmatched detections. -/
def trackerUpdate (st : TrackerState) (dets : List Detection) : TrackerState :=
  if dets.isEmpty then { st with tracks := ageAll st.max_disappeared st.tracks }
  else if st.tracks.isEmpty then registerDets st dets
  else
    let pairs := greedyMatch st.tracks dets st.max_distance_sq
    let tracks1 := applyMatchesAux pairs dets 0 st.tracks
    if dets.length ≤ st.tracks.length then
      { st with tracks := ageUnmatchedAux (pairs.map Prod.fst) st.max_disappeared 0 tracks1 }
    else
      registerDets { st with tracks := tracks1 }
        ((unmatchedDetIdxs pairs dets.length).map (detAt dets))

/-- The ids of the live tracks. -/
def trackIds (st : TrackerState) : List Nat := st.tracks.map (fun e => e.id)

/-- Well-formedness: every live id is below `next_id`, and ids are distinct. -/
abbrev TrackerWF (st : TrackerState) : Prop :=
  (∀ e ∈ st.tracks, e.id < st.next_id) ∧ (trackIds st).Nodup

/-! ## robust_server.py — RobustLavaServer

Wall-clock times are exact rationals; `random.randrange(n)`'s draws are an
injected stream of naturals reduced `% n` (matching its range `[0, n)`);
the broadcast payloads, websocket plumbing and video I/O are outside the
claims and not modelled. -/

/-- The two foot labels `'left'` / `'right'`. -/
inductive Foot where
  | left
  | right
deriving DecidableEq

/-- The per-foot hazard test of `_check_lava_collisions`:
`in_bounds = 0 <= row < rows and 0 <= col < cols`,
`is_lava = in_bounds and (row, col) in lava_tiles`. -/
def footHazard (rows cols : Nat) (tiles : Finset (Int × Int)) (row col : Int) : Bool :=
  (decide (0 ≤ row) && decide (row < (rows : Int)) &&
   decide (0 ≤ col) && decide (col < (cols : Int))) &&
  decide ((row, col) ∈ tiles)

/-- Python dict assignment `d[key] = v` on an insertion-ordered entry list. -/
def setKey {α β : Type} [DecidableEq α] : List (α × β) → α → β → List (α × β)
  | [], a, b => [(a, b)]
  | (a', b') :: rest, a, b =>
    if a' = a then (a, b) :: rest else (a', b') :: setKey rest a b

/-- The server's state, restricted to the fields the claims touch. -/
structure ServerState where
  rows : Nat
  cols : Nat
  lava_tiles : Finset (Int × Int)
  game_active : Bool
  collision_detected : Bool
  collision_message : String
  last_collision_time : ℚ
  collision_cooldown : ℚ
  demo_enabled : Bool
  demo_interval : ℚ
  demo_tiles_num : Nat
  last_demo_time : ℚ
  has_clients : Bool
  smoother_k : Nat
  smoother_m : Nat
  smoother_frame : Nat
  smoother_state : List ((Nat × Foot) × SmoothState)
deriving DecidableEq

/-- `self.smoother.observe(person_id, foot_name, row, col, is_lava)`: fetch
(or lazily create) the key's state, step it, store it back. -/
def serverObserve (st : ServerState) (pid : Nat) (foot : Foot) (row col : Int)
    (is_lava : Bool) : ServerState × Bool :=
  let key := (pid, foot)
  let s0 := (List.lookup key st.smoother_state).getD
    (initSmoothState st.smoother_frame row col)
  let r := observe st.smoother_k st.smoother_m st.smoother_frame row col s0 is_lava
  ({ st with smoother_state := setKey st.smoother_state key r.1 }, r.2)

/-- The collision message f-string. -/
def collisionMessage (pid : Nat) (row col : Int) : String :=
  "🔥 PERSON " ++ toString pid ++ " STEPPED INTO LAVA! Grid: (" ++ toString row ++
    ", " ++ toString col ++ ")"

/-- The structured `event_on_lava` payload (the millisecond timestamp,
taken from a second wall-clock read, is not modelled). -/
structure LavaEvent where
  person_id : Nat
  foot : Foot
  grid : Int × Int
  consecutive_frames : Nat
deriving DecidableEq

/-- One person's per-tick data as consumed by `_check_lava_collisions`:
id plus the two feet's grid cells. -/
structure PersonFeet where
  person_id : Nat
  left_grid : Int × Int
  right_grid : Int × Int
deriving DecidableEq

/-- The body of `_check_lava_collisions` for a single foot: hazard test,
debounce, and — when triggered on a hazard while the game is active and the
global cooldown has elapsed — record the collision and emit an event. -/
def checkFoot (st : ServerState) (now : ℚ) (pid : Nat) (foot : Foot) (grid : Int × Int) :
    ServerState × Option LavaEvent :=
  let row := grid.1
  let col := grid.2
  let is_lava := footHazard st.rows st.cols st.lava_tiles row col
  let r := serverObserve st pid foot row col is_lava
  let st1 := r.1
  if r.2 && is_lava && st1.game_active then
    if st1.collision_cooldown < now - st1.last_collision_time then
      ({ st1 with collision_detected := true,
                  collision_message := collisionMessage pid row col,
                  last_collision_time := now },
       Option.some ⟨pid, foot, (row, col), st1.smoother_k⟩)
    else (st1, Option.none)
  else (st1, Option.none)

/-- `_check_lava_collisions` for one person: left foot then right foot. -/
def checkPerson (st : ServerState) (now : ℚ) (p : PersonFeet) :
    ServerState × List LavaEvent :=
  let r1 := checkFoot st now p.person_id Foot.left p.left_grid
  let r2 := checkFoot r1.1 now p.person_id Foot.right p.right_grid
  (r2.1, r1.2.toList ++ r2.2.toList)

/-- `RobustLavaServer._check_lava_collisions`: fold over the tick's persons,
threading the (shared, global-cooldown) state and accumulating events. -/
def checkLavaCollisions (st : ServerState) (now : ℚ) (ps : List PersonFeet) :
    ServerState × List LavaEvent :=
  ps.foldl (fun acc p =>
    let r := checkPerson acc.1 now p
    (r.1, acc.2 ++ r.2)) (st, [])

/-- A JSON value as decoded by `json.loads` into Python data. -/
inductive PyVal where
  | num (q : ℚ)
  | str (s : String)
  | boolean (b : Bool)
  | list (l : List PyVal)
  | null

/-- Python `int(float)`: truncation toward zero. -/
def ratTrunc (q : ℚ) : Int := if 0 ≤ q then q.floor else q.ceil

/-- Python `int(x)` on a JSON value: numbers truncate, strings parse (or
raise), booleans coerce, anything else raises. `Option.none` is the raised
exception. -/
def pyInt : PyVal → Option Int
  | PyVal.num q => Option.some (ratTrunc q)
  | PyVal.str s => s.toInt?
  | PyVal.boolean b => Option.some (if b then 1 else 0)
  | PyVal.list _ => Option.none
  | PyVal.null => Option.none

/-- One iteration of the `tile_update` loop: entries that are not two-element
lists are skipped; two-element lists have both elements converted with
`int(...)` (an exception aborts the whole command: `Option.none`), and the
pair is added only when it is in `[0, rows) × [0, cols)`. -/
def stepTile (rows cols : Nat) (S : Finset (Int × Int)) (t : PyVal) :
    Option (Finset (Int × Int)) :=
  match t with
  | PyVal.list [a, b] =>
    match pyInt a, pyInt b with
    | Option.some r, Option.some c =>
      Option.some (if 0 ≤ r ∧ r < (rows : Int) ∧ 0 ≤ c ∧ c < (cols : Int)
        then insert (r, c) S else S)
    | _, _ => Option.none
  | _ => Option.some S

/-- The `tile_update` loop: build `new_tiles` from scratch; a raised
conversion aborts everything after it (the assignment never runs). -/
def collectTiles (rows cols : Nat) (incoming : List PyVal) :
    Option (Finset (Int × Int)) :=
  incoming.foldl (fun acc t => acc.bind (fun S => stepTile rows cols S t)) (Option.some ∅)

/-- Modelled from the spec: "the set of well-formed in-range pairs of the
command's `lava_tiles` list" — the replacement set claim C6 predicts. -/
def goodPair (rows cols : Nat) (t : PyVal) : Option (Int × Int) :=
  match t with
  | PyVal.list [a, b] =>
    match pyInt a, pyInt b with
    | Option.some r, Option.some c =>
      if 0 ≤ r ∧ r < (rows : Int) ∧ 0 ≤ c ∧ c < (cols : Int)
        then Option.some (r, c) else Option.none
    | _, _ => Option.none
  | _ => Option.none

/-- Modelled from the spec: the set of all well-formed in-range pairs. -/
def specTileSet (rows cols : Nat) (incoming : List PyVal) : Finset (Int × Int) :=
  (incoming.filterMap (goodPair rows cols)).toFinset

/-- An inbound client command, after JSON decoding and the `type` dispatch. -/
inductive ClientMsg where
  | tile_update (lava_tiles : List PyVal)
  | restart_game
  | other

/-- `RobustLavaServer._handle_message`. -/
def handleMessage (st : ServerState) (msg : ClientMsg) : ServerState :=
  match msg with
  | ClientMsg.tile_update incoming =>
    match collectTiles st.rows st.cols incoming with
    | Option.some S => { st with lava_tiles := S }
    | Option.none => st
  | ClientMsg.restart_game =>
    { st with game_active := true, collision_detected := false, collision_message := "" }
  | ClientMsg.other => st

/-- The demo fill loop: `demo_tiles_num` draws of
`(randrange(rows), randrange(cols))` added to a fresh set. -/
def demoFill (rows cols n : Nat) (rand : Nat → Nat) : Finset (Int × Int) :=
  (List.range n).foldl
    (fun S i => insert (((rand (2 * i) % rows : Nat) : Int),
                        ((rand (2 * i + 1) % cols : Nat) : Int)) S) ∅

/-- `RobustLavaServer._maybe_demo_tiles`. -/
def maybeDemoTiles (st : ServerState) (now : ℚ) (rand : Nat → Nat) : ServerState :=
  if st.demo_enabled = false then st
  else if st.has_clients && decide (st.demo_interval < now - st.last_demo_time)
      && decide (st.lava_tiles = ∅) then
    { st with lava_tiles := demoFill st.rows st.cols st.demo_tiles_num rand,
              last_demo_time := now }
  else st

/-- The hazard-set bound of the spec's data model: every cell lies in
`[0, rows) × [0, cols)`. -/
abbrev tilesInBounds (rows cols : Nat) (S : Finset (Int × Int)) : Prop :=
  ∀ p ∈ S, 0 ≤ p.1 ∧ p.1 < (rows : Int) ∧ 0 ≤ p.2 ∧ p.2 < (cols : Int)

/-- A tile-list entry whose `int(...)` conversions do not raise: either it
fails the two-element-list shape check (and is skipped), or both elements
convert. -/
def tileOk : PyVal → Prop
  | PyVal.list [a, b] => (pyInt a).isSome = true ∧ (pyInt b).isSome = true
  | _ => True

/-- A server on the default 8×8 grid with the default smoothing, cooldown
and demo configuration, game active, no collision yet, a connected client,
and the given hazard set. -/
def sampleServer (tiles : Finset (Int × Int)) : ServerState :=
  ⟨8, 8, tiles, true, false, "", 0, 2, true, 2, 6, 0, true, 3, 2, 0, []⟩

/-- A server state for the two-person cooldown scenario: hazard cells
`{(0,0), (1,1)}`, trigger threshold `k = 1`, cooldown 2 s, last event at
time 0. -/
def demoServer : ServerState :=
  ⟨8, 8, {((0 : Int), (0 : Int)), ((1 : Int), (1 : Int))}, true, false, "", 0, 2,
   true, 2, 6, 0, true, 1, 2, 1, []⟩

/-- Two persons, each with one foot on a hazard cell and one on a safe cell. -/
def demoPersons : List PersonFeet :=
  [⟨0, (0, 0), (5, 5)⟩, ⟨1, (1, 1), (6, 6)⟩]

/-- The event person 0's left foot fires in the cooldown scenario. -/
def evA : LavaEvent := ⟨0, Foot.left, (0, 0), 1⟩

/-- `demoServer` after person 0's left foot fired: collision recorded,
`last_collision_time` moved to 10, that key's debouncer flagged. -/
def stA : ServerState :=
  ⟨8, 8, {((0 : Int), (0 : Int)), ((1 : Int), (1 : Int))}, true, true,
   collisionMessage 0 0 0, 10, 2, true, 2, 6, 0, true, 1, 2, 1,
   [((0, Foot.left), ⟨1, 1, 0, true, (0, 0)⟩)]⟩

/-- `stA` after person 0's safe right foot was observed. -/
def stB : ServerState :=
  { stA with smoother_state :=
      [((0, Foot.left), ⟨1, 1, 0, true, (0, 0)⟩),
       ((0, Foot.right), ⟨1, 0, 1, false, (5, 5)⟩)] }

/-- `stB` after person 1's left foot triggered on a hazard but was silenced
by the global cooldown (its debouncer still flags, no event). -/
def stC : ServerState :=
  { stA with smoother_state :=
      [((0, Foot.left), ⟨1, 1, 0, true, (0, 0)⟩),
       ((0, Foot.right), ⟨1, 0, 1, false, (5, 5)⟩),
       ((1, Foot.left), ⟨1, 1, 0, true, (1, 1)⟩)] }

/-- `stC` after person 1's safe right foot was observed. -/
def stD : ServerState :=
  { stA with smoother_state :=
      [((0, Foot.left), ⟨1, 1, 0, true, (0, 0)⟩),
       ((0, Foot.right), ⟨1, 0, 1, false, (5, 5)⟩),
       ((1, Foot.left), ⟨1, 1, 0, true, (1, 1)⟩),
       ((1, Foot.right), ⟨1, 0, 1, false, (6, 6)⟩)] }

/-- A tracker with one live track (id 0) and the default thresholds
(`max_disappeared = 30`, `max_distance = 50`, squared to 2500). -/
def sampleTracker : TrackerState :=
  ⟨1, [⟨0, ⟨(0, 0), (0, 0)⟩, (0, 0), 0⟩], 30, 2500⟩

/-- Two detections, one near the sample track and one far away. -/
def sampleDets2 : List Detection :=
  [⟨(1, 1), (1, 1)⟩, ⟨(100, 100), (100, 100)⟩]

/-! ## Theorems -/

/-- `Rat.floor` agrees with the mathematical floor. -/
theorem ratFloor_eq_intFloor (q : ℚ) : q.floor = ⌊q⌋ := by
  rw [Rat.floor_def', Rat.floor_def]

/-- Clamping the continuous coordinate into `[0, n]` before flooring and
clamping into `[0, n-1]` yields the same cell as flooring and clamping the
unclamped coordinate. -/
theorem floorClip_clamp (n : Nat) (hn : 1 ≤ n) (rf : ℚ) :
    intClip (npClip rf 0 (n : ℚ)).floor 0 ((n : Int) - 1) =
      intClip rf.floor 0 ((n : Int) - 1) := by
  rw [ratFloor_eq_intFloor, ratFloor_eq_intFloor]
  have hn0 : (0 : ℚ) ≤ (n : ℚ) := by positivity
  rcases lt_or_le rf 0 with h0 | h0
  · have h1 : npClip rf 0 (n : ℚ) = 0 := by
      rw [npClip, max_eq_right h0.le, min_eq_left hn0]
    have h2 : ⌊rf⌋ < 0 := Int.floor_lt.mpr (by exact_mod_cast h0)
    rw [h1, Int.floor_zero]
    unfold intClip
    omega
  · rcases le_or_lt rf (n : ℚ) with h1 | h1
    · rw [npClip, max_eq_left h0, min_eq_left h1]
    · have h2 : npClip rf 0 (n : ℚ) = (n : ℚ) := by
        rw [npClip, max_eq_left h0, min_eq_right h1.le]
      have h3 : (n : Int) ≤ ⌊rf⌋ := Int.le_floor.mpr (by exact_mod_cast h1.le)
      rw [h2, Int.floor_natCast]
      unfold intClip
      omega

/-- The clamped coordinate is never negative. -/
theorem npClip_nonneg (n : Nat) (rf : ℚ) : 0 ≤ npClip rf 0 (n : ℚ) :=
  le_min (le_max_right rf 0) (by positivity)

/-- For `n ≥ 1`, the clamped coordinate reaches `n` exactly when the
unclamped one does. -/
theorem npClip_upper_iff (n : Nat) (hn : 1 ≤ n) (rf : ℚ) :
    (n : ℚ) ≤ npClip rf 0 (n : ℚ) ↔ (n : ℚ) ≤ rf := by
  unfold npClip
  rw [le_min_iff]
  constructor
  · rintro ⟨h1, -⟩
    rcases le_max_iff.mp h1 with h | h
    · exact h
    · exfalso
      have : (1 : ℚ) ≤ (n : ℚ) := by exact_mod_cast hn
      linarith
  · intro h
    exact ⟨le_max_of_le_left h, le_refl _⟩

/-- The floored-and-clamped cell index always lands in `[0, n)`. -/
theorem intClip_bounds (v : Int) (n : Nat) (hn : 1 ≤ n) :
    0 ≤ intClip v 0 ((n : Int) - 1) ∧ intClip v 0 ((n : Int) - 1) < (n : Int) := by
  unfold intClip
  omega

/-- `(-1 : ℚ).floor = -1`. -/
theorem ratFloor_neg_one : (-1 : ℚ).floor = -1 := by
  rw [ratFloor_eq_intFloor, show (-1 : ℚ) = ((-1 : Int) : ℚ) by norm_num,
    Int.floor_intCast]

/-- The robust mapper's cell agrees with the plain mapper's cell, and its
out-of-bounds flag degenerates to the upper-boundary test on the raw
coordinate (the pre-clamping hides every negative coordinate). -/
theorem robust_cell_eq_clamped (H : Homography) (rows cols : Nat)
    (hr : 1 ≤ rows) (hc : 1 ≤ cols) (x y : ℚ) :
    robust_pixel_to_grid_cell ⟨Option.some H, rows, cols⟩ x y =
      ((pixel_to_grid_cell ⟨Option.some H, rows, cols⟩ x y).1,
       (pixel_to_grid_cell ⟨Option.some H, rows, cols⟩ x y).2.1,
       decide ((rows : ℚ) ≤ (rawGridCoord H x y).1 ∨
               (cols : ℚ) ≤ (rawGridCoord H x y).2)) := by
  simp only [robust_pixel_to_grid_cell, pixel_to_grid_cell,
    robust_pixel_to_grid_float, pixel_to_grid_float, cellFromFloat, Prod.mk.injEq]
  refine ⟨floorClip_clamp rows hr _, floorClip_clamp cols hc _, ?_⟩
  rw [decide_eq_decide]
  have h1 := npClip_nonneg rows ((rawGridCoord H x y).1)
  have h2 := npClip_nonneg cols ((rawGridCoord H x y).2)
  constructor
  · rintro (h | h | h | h)
    · exact absurd h (not_lt.mpr h1)
    · exact absurd h (not_lt.mpr h2)
    · exact Or.inl ((npClip_upper_iff rows hr _).mp h)
    · exact Or.inr ((npClip_upper_iff cols hc _).mp h)
  · rintro (h | h)
    · exact Or.inr (Or.inr (Or.inl ((npClip_upper_iff rows hr _).mpr h)))
    · exact Or.inr (Or.inr (Or.inr ((npClip_upper_iff cols hc _).mpr h)))

/-- C1 (amended): with no transform loaded both `pixel_to_grid_float`
methods return the sentinel `(-1, -1)`; both `pixel_to_grid_cell` methods
then return the clamped cell `(0, 0)` with `oob = true`; and since the
session loop's hazard test uses only the clamped cell (never the oob flag),
the per-limb hazard test evaluates to `(0,0) ∈ HazardSet` — false exactly
when cell `(0,0)` is not a hazard cell, not uniformly false. -/
theorem claim_C1_thm :
    (∀ (rows cols : Nat) (x y : ℚ),
      pixel_to_grid_float ⟨Option.none, rows, cols⟩ x y = (-1, -1) ∧
      robust_pixel_to_grid_float ⟨Option.none, rows, cols⟩ x y = (-1, -1)) ∧
    (∀ (rows cols : Nat) (x y : ℚ), 1 ≤ rows → 1 ≤ cols →
      pixel_to_grid_cell ⟨Option.none, rows, cols⟩ x y = (0, 0, true) ∧
      robust_pixel_to_grid_cell ⟨Option.none, rows, cols⟩ x y = (0, 0, true)) ∧
    (∀ (rows cols : Nat) (tiles : Finset (Int × Int)) (x y : ℚ),
      1 ≤ rows → 1 ≤ cols →
      footHazard rows cols tiles
          (robust_pixel_to_grid_cell ⟨Option.none, rows, cols⟩ x y).1
          (robust_pixel_to_grid_cell ⟨Option.none, rows, cols⟩ x y).2.1 =
        decide (((0 : Int), (0 : Int)) ∈ tiles)) := by
  have hcell : ∀ (rows cols : Nat) (x y : ℚ), 1 ≤ rows → 1 ≤ cols →
      pixel_to_grid_cell ⟨Option.none, rows, cols⟩ x y = (0, 0, true) ∧
      robust_pixel_to_grid_cell ⟨Option.none, rows, cols⟩ x y = (0, 0, true) := by
    intro rows cols x y hr hc
    constructor <;>
    · simp only [pixel_to_grid_cell, robust_pixel_to_grid_cell, pixel_to_grid_float,
        robust_pixel_to_grid_float, cellFromFloat, ratFloor_neg_one, Prod.mk.injEq]
      refine ⟨by unfold intClip; omega, by unfold intClip; omega, ?_⟩
      exact decide_eq_true (Or.inl (by norm_num))
  refine ⟨fun rows cols x y => ⟨rfl, rfl⟩, hcell, ?_⟩
  intro rows cols tiles x y hr hc
  rw [(hcell rows cols x y hr hc).2]
  have hrI : (0 : Int) < (rows : Int) := by exact_mod_cast hr
  have hcI : (0 : Int) < (cols : Int) := by exact_mod_cast hc
  simp [footHazard, hrI, hcI]

/-- C1 witness: on the 8×8 default grid, an uncalibrated mapper maps pixel
(100, 100) to the clamped cell (0, 0) with the oob flag set. -/
theorem claim_C1_witness :
    pixel_to_grid_cell ⟨Option.none, 8, 8⟩ 100 100 = (0, 0, true) ∧
    robust_pixel_to_grid_cell ⟨Option.none, 8, 8⟩ 100 100 = (0, 0, true) :=
  claim_C1_thm.2.1 8 8 100 100 (by decide) (by decide)

/-- C1 counterexample: with no transform loaded and HazardSet `{(0,0)}`, the
session loop's per-limb hazard test on any foot observation (here pixel
(100, 100)) evaluates to true — refuting "isHazard = false for every pixel
input and every HazardSet". -/
theorem claim_C1_counterexample :
    footHazard 8 8 {((0 : Int), (0 : Int))}
        (robust_pixel_to_grid_cell ⟨Option.none, 8, 8⟩ 100 100).1
        (robust_pixel_to_grid_cell ⟨Option.none, 8, 8⟩ 100 100).2.1 = true := by
  decide

/-- C2 (amended): for the plain mapper (`mapping.py`) the claim holds as
stated: `oob` is computed from the unclamped continuous coordinate and the
returned cell is floored and clamped into a valid cell. For the robust
mapper (`robust_mapping.py`, the one the server uses), the continuous
coordinate is pre-clamped into `[0, rows] × [0, cols]`, so its `oob` flag is
true exactly when the unclamped coordinate reaches `rows`/`cols` from above
— a negative coordinate is clamped to 0 and not flagged; its returned cell
still agrees with floor-and-clamp of the unclamped coordinate. Both mappers
satisfy the two concrete examples. -/
theorem claim_C2_thm :
    (∀ (H : Homography) (rows cols : Nat) (x y : ℚ), 1 ≤ rows → 1 ≤ cols →
      ((pixel_to_grid_cell ⟨Option.some H, rows, cols⟩ x y).2.2 = true ↔
        ((rawGridCoord H x y).1 < 0 ∨ (rawGridCoord H x y).2 < 0 ∨
         (rows : ℚ) ≤ (rawGridCoord H x y).1 ∨ (cols : ℚ) ≤ (rawGridCoord H x y).2)) ∧
      (0 ≤ (pixel_to_grid_cell ⟨Option.some H, rows, cols⟩ x y).1 ∧
       (pixel_to_grid_cell ⟨Option.some H, rows, cols⟩ x y).1 < (rows : Int) ∧
       0 ≤ (pixel_to_grid_cell ⟨Option.some H, rows, cols⟩ x y).2.1 ∧
       (pixel_to_grid_cell ⟨Option.some H, rows, cols⟩ x y).2.1 < (cols : Int))) ∧
    (∀ (H : Homography) (rows cols : Nat) (x y : ℚ), 1 ≤ rows → 1 ≤ cols →
      robust_pixel_to_grid_cell ⟨Option.some H, rows, cols⟩ x y =
        ((pixel_to_grid_cell ⟨Option.some H, rows, cols⟩ x y).1,
         (pixel_to_grid_cell ⟨Option.some H, rows, cols⟩ x y).2.1,
         decide ((rows : ℚ) ≤ (rawGridCoord H x y).1 ∨
                 (cols : ℚ) ≤ (rawGridCoord H x y).2))) ∧
    (pixel_to_grid_cell ⟨Option.some idH, 8, 8⟩ 0 0 = (0, 0, false) ∧
     robust_pixel_to_grid_cell ⟨Option.some idH, 8, 8⟩ 0 0 = (0, 0, false)) ∧
    (pixel_to_grid_cell ⟨Option.some idH, 8, 8⟩ 10000 10000 = (7, 7, true) ∧
     robust_pixel_to_grid_cell ⟨Option.some idH, 8, 8⟩ 10000 10000 = (7, 7, true)) := by
  have e0 : rawGridCoord idH 0 0 = (0, 0) := by
    simp only [rawGridCoord, idH]
    norm_num
  have e1 : rawGridCoord idH 10000 10000 =
      (10000000000000 / 1000000001, 10000000000000 / 1000000001) := by
    simp only [rawGridCoord, idH]
    norm_num
  have f0 : (0 : ℚ).floor = 0 := by
    rw [ratFloor_eq_intFloor]
    exact Int.floor_zero
  have f1 : ((10000000000000 : ℚ) / 1000000001).floor = 9999 := by
    rw [ratFloor_eq_intFloor, Int.floor_eq_iff]
    norm_num
  have hplain0 : pixel_to_grid_cell ⟨Option.some idH, 8, 8⟩ 0 0 = (0, 0, false) := by
    simp only [pixel_to_grid_cell, pixel_to_grid_float, cellFromFloat, e0, f0,
      Prod.mk.injEq]
    refine ⟨by decide, by decide, decide_eq_false ?_⟩
    rintro (h | h | h | h) <;> norm_num at h
  have hplain1 : pixel_to_grid_cell ⟨Option.some idH, 8, 8⟩ 10000 10000 = (7, 7, true) := by
    simp only [pixel_to_grid_cell, pixel_to_grid_float, cellFromFloat, e1, f1,
      Prod.mk.injEq]
    refine ⟨by decide, by decide, decide_eq_true ?_⟩
    refine Or.inr (Or.inr (Or.inl ?_))
    norm_num
  refine ⟨?_, fun H rows cols x y hr hc => robust_cell_eq_clamped H rows cols hr hc x y,
    ⟨hplain0, ?_⟩, ⟨hplain1, ?_⟩⟩
  · intro H rows cols x y hr hc
    constructor
    · simp only [pixel_to_grid_cell, pixel_to_grid_float, cellFromFloat,
        decide_eq_true_iff]
    · simp only [pixel_to_grid_cell, pixel_to_grid_float, cellFromFloat]
      exact ⟨(intClip_bounds _ rows hr).1, (intClip_bounds _ rows hr).2,
        (intClip_bounds _ cols hc).1, (intClip_bounds _ cols hc).2⟩
  · rw [robust_cell_eq_clamped idH 8 8 (by decide) (by decide) 0 0, hplain0, e0]
    simp only [Prod.mk.injEq]
    refine ⟨trivial, trivial, decide_eq_false ?_⟩
    rintro (h | h) <;> norm_num at h
  · rw [robust_cell_eq_clamped idH 8 8 (by decide) (by decide) 10000 10000, hplain1, e1]
    simp only [Prod.mk.injEq]
    refine ⟨trivial, trivial, decide_eq_true ?_⟩
    refine Or.inl ?_
    norm_num

/-- C2 witness: with the identity transform on the 8×8 grid, the cell
returned for pixel (0, 0) is a valid cell. -/
theorem claim_C2_witness :
    0 ≤ (pixel_to_grid_cell ⟨Option.some idH, 8, 8⟩ 0 0).1 ∧
    (pixel_to_grid_cell ⟨Option.some idH, 8, 8⟩ 0 0).1 < ((8 : Nat) : Int) ∧
    0 ≤ (pixel_to_grid_cell ⟨Option.some idH, 8, 8⟩ 0 0).2.1 ∧
    (pixel_to_grid_cell ⟨Option.some idH, 8, 8⟩ 0 0).2.1 < ((8 : Nat) : Int) :=
  (claim_C2_thm.1 idH 8 8 0 0 (by decide) (by decide)).2

/-- C2 counterexample: for the robust mapper with the identity transform on
the 8×8 grid, pixel (-1, -1) has a negative unclamped continuous row
coordinate, yet the returned oob flag is false — refuting "oob is true iff
row_f < 0 or col_f < 0 or row_f ≥ rows or col_f ≥ cols" for the unclamped
coordinate. -/
theorem claim_C2_counterexample :
    (rawGridCoord idH (-1) (-1)).1 < 0 ∧
    (robust_pixel_to_grid_cell ⟨Option.some idH, 8, 8⟩ (-1) (-1)).2.2 = false := by
  have e : rawGridCoord idH (-1) (-1) =
      (-1000000000 / 1000000001, -1000000000 / 1000000001) := by
    simp only [rawGridCoord, idH]
    norm_num
  constructor
  · rw [e]
    norm_num
  · rw [robust_cell_eq_clamped idH 8 8 (by decide) (by decide) (-1) (-1)]
    dsimp only
    rw [e]
    refine decide_eq_false ?_
    rintro (h | h) <;> norm_num at h

/-- C3: for every sequence of observe calls on a fixed (trackId, limb) key
with threshold K, observe returns true exactly on a call where isHazard is
true, the state was Idle, and the consecutive-hazard run has just reached K
(every other call returns false); the idle-run-below-K invariant holds
initially and is preserved by every observation; with K=3, five consecutive
hazard observations yield [false, false, true, false, false], and with K=2
the sequence true, false, true, true yields [false, false, false, true]. -/
theorem claim_C3_thm :
    (∀ (k m frame : Nat) (row col : Int) (s : SmoothState) (b : Bool),
      1 ≤ k → smoothInv k s →
      ((observe k m frame row col s b).2 = true ↔
        b = true ∧ s.is_on_lava = false ∧ s.lava_run + 1 = k)) ∧
    (∀ (k m frame : Nat) (row col : Int) (s : SmoothState) (b : Bool),
      1 ≤ k → smoothInv k s → smoothInv k (observe k m frame row col s b).1) ∧
    (∀ (k frame : Nat) (row col : Int), 1 ≤ k →
      smoothInv k (initSmoothState frame row col)) ∧
    triggerSeq 3 2 [true, true, true, true, true] = [false, false, true, false, false] ∧
    triggerSeq 2 2 [true, false, true, true] = [false, false, false, true] := by
  refine ⟨?_, ?_, ?_, by decide, by decide⟩
  · intro k m frame row col s b hk hinv
    cases b <;> cases hOn : s.is_on_lava <;>
      simp only [observe, hOn, Bool.false_and, Bool.and_false, Bool.true_and,
        Bool.and_true, Bool.not_false, Bool.not_true, if_false, if_true] <;>
      (try split_ifs) <;> (try simp_all) <;> omega
  · intro k m frame row col s b hk hinv
    cases b <;> cases hOn : s.is_on_lava <;>
      simp only [observe, hOn, Bool.false_and, Bool.and_false, Bool.true_and,
        Bool.and_true, Bool.not_false, Bool.not_true, if_false, if_true] <;>
      (try split_ifs) <;> (try simp_all [smoothInv]) <;> omega
  · intro k frame row col hk
    simp [initSmoothState, smoothInv]
    omega

/-- C3 witness: at `k = 3` on a fresh key, a first hazard observation does
not trigger (the run has only reached 1). -/
theorem claim_C3_witness :
    (observe 3 2 1 2 3 (initSmoothState 0 2 3) true).2 = true ↔
      true = true ∧ (initSmoothState 0 2 3).is_on_lava = false ∧
        (initSmoothState 0 2 3).lava_run + 1 = 3 :=
  claim_C3_thm.1 3 2 1 2 3 (initSmoothState 0 2 3) true (by decide) (by decide)

/-- C8: after every observe call, exactly one of the lava run and the safe
run is non-zero: the observed sign's counter was just incremented (so is
positive) and the other was reset to zero; since this holds for an arbitrary
input state, it is preserved by every sequence of observe calls. -/
theorem claim_C8_thm :
    ∀ (k m frame : Nat) (row col : Int) (s : SmoothState) (b : Bool),
      ((observe k m frame row col s b).1.lava_run = 0 ∧
        (observe k m frame row col s b).1.safe_run ≠ 0) ∨
      ((observe k m frame row col s b).1.safe_run = 0 ∧
        (observe k m frame row col s b).1.lava_run ≠ 0) := by
  intro k m frame row col s b
  cases b <;>
    simp only [observe, Bool.false_and, Bool.and_false, Bool.true_and,
      Bool.and_true, Bool.not_false, Bool.not_true, if_false, if_true] <;>
    split_ifs <;> simp

/-- A non-raising tile entry steps the accumulator by inserting its parsed
pair when in range, else leaving the set unchanged. -/
theorem stepTile_ok (rows cols : Nat) (S : Finset (Int × Int)) (t : PyVal)
    (h : tileOk t) :
    stepTile rows cols S t =
      Option.some (match goodPair rows cols t with
        | Option.some p => insert p S
        | Option.none => S) := by
  cases t with
  | num q => rfl
  | str s => rfl
  | boolean b => rfl
  | null => rfl
  | list l =>
    rcases l with _ | ⟨a, _ | ⟨b, _ | ⟨c, rest⟩⟩⟩
    · rfl
    · rfl
    · obtain ⟨ha, hb⟩ := h
      obtain ⟨r, hr⟩ := Option.isSome_iff_exists.mp ha
      obtain ⟨c, hc⟩ := Option.isSome_iff_exists.mp hb
      simp only [stepTile, goodPair, hr, hc]
      split_ifs <;> rfl
    · rfl

/-- A raised exception propagates through the rest of the fold. -/
theorem collectTiles_none (rows cols : Nat) (l : List PyVal) :
    l.foldl (fun acc t => acc.bind (fun S => stepTile rows cols S t))
      (Option.none : Option (Finset (Int × Int))) = Option.none := by
  induction l with
  | nil => rfl
  | cons t rest ih => simpa using ih

/-- When no entry raises, the `tile_update` fold computes exactly the union
of the accumulator with the set of well-formed in-range pairs. -/
theorem collectTiles_go (rows cols : Nat) (l : List PyVal) (S : Finset (Int × Int))
    (h : ∀ t ∈ l, tileOk t) :
    l.foldl (fun acc t => acc.bind (fun S => stepTile rows cols S t)) (Option.some S) =
      Option.some (S ∪ (l.filterMap (goodPair rows cols)).toFinset) := by
  induction l generalizing S with
  | nil => simp
  | cons t rest ih =>
    have ht : tileOk t := h t (List.mem_cons_self t rest)
    have hrest : ∀ u ∈ rest, tileOk u := fun u hu => h u (List.mem_cons_of_mem t hu)
    simp only [List.foldl_cons, Option.some_bind, stepTile_ok rows cols S t ht]
    cases hg : goodPair rows cols t with
    | none =>
      simp only [hg]
      rw [ih S hrest]
      simp [List.filterMap_cons, hg]
    | some p =>
      simp only [hg]
      rw [ih (insert p S) hrest]
      simp only [List.filterMap_cons, hg, List.toFinset_cons]
      rw [Finset.union_insert, Finset.insert_union]

/-- C6 (amended): a `tile_update` whose entries all either fail the
two-element-list shape check or convert cleanly replaces the HazardSet
wholesale with exactly the set of well-formed in-range pairs (shape
failures and out-of-range pairs are silently dropped); the concrete 8×8
example `[[0,0],[1,1],[99,99]]` yields exactly `{(0,0),(1,1)}`. However, a
two-element pair whose elements fail `int(...)` conversion raises, aborting
the whole command with the HazardSet unchanged. -/
theorem claim_C6_thm :
    (∀ (st : ServerState) (incoming : List PyVal), (∀ t ∈ incoming, tileOk t) →
      (handleMessage st (ClientMsg.tile_update incoming)).lava_tiles =
        specTileSet st.rows st.cols incoming) ∧
    (∀ (st : ServerState) (incoming : List PyVal),
      collectTiles st.rows st.cols incoming = Option.none →
      handleMessage st (ClientMsg.tile_update incoming) = st) ∧
    (handleMessage (sampleServer ∅) (ClientMsg.tile_update
        [PyVal.list [PyVal.num 0, PyVal.num 0], PyVal.list [PyVal.num 1, PyVal.num 1],
         PyVal.list [PyVal.num 99, PyVal.num 99]])).lava_tiles =
      {((0 : Int), (0 : Int)), ((1 : Int), (1 : Int))} := by
  refine ⟨?_, ?_, ?_⟩
  · intro st incoming h
    simp only [handleMessage, collectTiles, collectTiles_go st.rows st.cols incoming ∅ h,
      Finset.empty_union, specTileSet]
  · intro st incoming h
    simp only [handleMessage, h]
  · decide

/-- C6 witness: a fully well-formed command on the sample server replaces
the HazardSet with exactly its valid pairs. -/
theorem claim_C6_witness :
    (handleMessage (sampleServer ∅) (ClientMsg.tile_update
        [PyVal.list [PyVal.num 0, PyVal.num 0]])).lava_tiles =
      specTileSet (sampleServer ∅).rows (sampleServer ∅).cols
        [PyVal.list [PyVal.num 0, PyVal.num 0]] :=
  claim_C6_thm.1 (sampleServer ∅) [PyVal.list [PyVal.num 0, PyVal.num 0]]
    (by intro t ht
        simp only [List.mem_singleton] at ht
        subst ht
        exact ⟨rfl, rfl⟩)

/-- C6 counterexample: the command `[[0,0],[null,null]]` contains a
malformed pair, and instead of dropping it, the whole command is rejected:
the HazardSet stays `{(5,5)}` rather than becoming the set of well-formed
in-range pairs `{(0,0)}`. -/
theorem claim_C6_counterexample :
    (handleMessage (sampleServer {((5 : Int), (5 : Int))}) (ClientMsg.tile_update
        [PyVal.list [PyVal.num 0, PyVal.num 0],
         PyVal.list [PyVal.null, PyVal.null]])).lava_tiles =
      {((5 : Int), (5 : Int))} ∧
    specTileSet 8 8 [PyVal.list [PyVal.num 0, PyVal.num 0],
        PyVal.list [PyVal.null, PyVal.null]] =
      {((0 : Int), (0 : Int))} ∧
    ({((5 : Int), (5 : Int))} : Finset (Int × Int)) ≠ {((0 : Int), (0 : Int))} := by
  refine ⟨by decide, by decide, by decide⟩

/-- One step of the `tile_update` loop keeps the set in bounds. -/
theorem stepTile_bounds (rows cols : Nat) (S S' : Finset (Int × Int)) (t : PyVal)
    (hS : tilesInBounds rows cols S) (h : stepTile rows cols S t = Option.some S') :
    tilesInBounds rows cols S' := by
  cases t with
  | num q => exact (Option.some.injEq _ _ ▸ h) ▸ hS
  | str s => exact (Option.some.injEq _ _ ▸ h) ▸ hS
  | boolean b => exact (Option.some.injEq _ _ ▸ h) ▸ hS
  | null => exact (Option.some.injEq _ _ ▸ h) ▸ hS
  | list l =>
    rcases l with _ | ⟨a, _ | ⟨b, _ | ⟨c, rest⟩⟩⟩
    · exact (Option.some.injEq _ _ ▸ h) ▸ hS
    · exact (Option.some.injEq _ _ ▸ h) ▸ hS
    · simp only [stepTile] at h
      cases ha : pyInt a with
      | none => rw [ha] at h; cases hb : pyInt b <;> rw [hb] at h <;> exact absurd h (by simp)
      | some r =>
        cases hb : pyInt b with
        | none => rw [ha, hb] at h; exact absurd h (by simp)
        | some c =>
          rw [ha, hb, Option.some.injEq] at h
          subst h
          split_ifs with hin
          · intro p hp
            rcases Finset.mem_insert.mp hp with rfl | hp
            · exact hin
            · exact hS p hp
          · exact hS
    · exact (Option.some.injEq _ _ ▸ h) ▸ hS

/-- The whole `tile_update` fold keeps the set in bounds. -/
theorem collectTiles_bounds (rows cols : Nat) (l : List PyVal)
    (S0 : Finset (Int × Int)) (hS0 : tilesInBounds rows cols S0)
    (S : Finset (Int × Int))
    (h : l.foldl (fun acc t => acc.bind (fun S => stepTile rows cols S t))
        (Option.some S0) = Option.some S) :
    tilesInBounds rows cols S := by
  induction l generalizing S0 with
  | nil =>
    simp only [List.foldl_nil, Option.some.injEq] at h
    exact h ▸ hS0
  | cons t rest ih =>
    simp only [List.foldl_cons, Option.some_bind] at h
    cases hst : stepTile rows cols S0 t with
    | none => rw [hst, collectTiles_none] at h; exact absurd h (by simp)
    | some S1 => exact ih S1 (stepTile_bounds rows cols S0 S1 t hS0 hst) (hst ▸ h)

/-- The demo-fill fold keeps an in-bounds accumulator in bounds: every
inserted cell is `(randrange rows, randrange cols)`. -/
theorem demoFillAux_bounds (rows cols : Nat) (rand : Nat → Nat)
    (hr : 0 < rows) (hc : 0 < cols) (l : List Nat) (S : Finset (Int × Int))
    (hS : tilesInBounds rows cols S) :
    tilesInBounds rows cols
      (l.foldl (fun S i => insert (((rand (2 * i) % rows : Nat) : Int),
        ((rand (2 * i + 1) % cols : Nat) : Int)) S) S) := by
  induction l generalizing S with
  | nil => exact hS
  | cons i rest ih =>
    simp only [List.foldl_cons]
    refine ih _ ?_
    intro p hp
    rcases Finset.mem_insert.mp hp with rfl | hp
    · refine ⟨Int.natCast_nonneg _, ?_, Int.natCast_nonneg _, ?_⟩
      · show ((rand (2 * i) % rows : Nat) : Int) < (rows : Int)
        exact_mod_cast Nat.mod_lt _ hr
      · show ((rand (2 * i + 1) % cols : Nat) : Int) < (cols : Int)
        exact_mod_cast Nat.mod_lt _ hc
    · exact hS p hp

/-- Every cell the demo fill produces is drawn in bounds. -/
theorem demoFill_bounds (rows cols n : Nat) (rand : Nat → Nat)
    (hr : 0 < rows) (hc : 0 < cols) :
    tilesInBounds rows cols (demoFill rows cols n rand) := by
  rw [demoFill]
  exact demoFillAux_bounds rows cols rand hr hc (List.range n) ∅
    (by intro p hp; simp at hp)

/-- The demo-fill fold adds at most one cell per iteration. -/
theorem demoFillAux_card (rows cols : Nat) (rand : Nat → Nat) (l : List Nat)
    (S : Finset (Int × Int)) :
    (l.foldl (fun S i => insert (((rand (2 * i) % rows : Nat) : Int),
        ((rand (2 * i + 1) % cols : Nat) : Int)) S) S).card ≤ S.card + l.length := by
  induction l generalizing S with
  | nil => simp
  | cons i rest ih =>
    simp only [List.foldl_cons, List.length_cons]
    calc (rest.foldl _ (insert _ S)).card
        ≤ (insert (((rand (2 * i) % rows : Nat) : Int),
            ((rand (2 * i + 1) % cols : Nat) : Int)) S).card + rest.length := ih _
      _ ≤ S.card + 1 + rest.length := by
          have := Finset.card_insert_le (((rand (2 * i) % rows : Nat) : Int),
            ((rand (2 * i + 1) % cols : Nat) : Int)) S
          omega
      _ = S.card + (rest.length + 1) := by omega

/-- C9: the HazardSet bound `0 ≤ row < rows ∧ 0 ≤ col < cols` holds for the
initial empty set, is preserved by every inbound client message (the
`tile_update` replacement filters out-of-range pairs, and an aborted or
non-tile message leaves the set unchanged), and — when the grid is
non-degenerate — is preserved by the demo auto-fill, whose cells are drawn
from `[0, rows) × [0, cols)`. -/
theorem claim_C9_thm :
    (∀ rows cols : Nat, tilesInBounds rows cols (∅ : Finset (Int × Int))) ∧
    (∀ (st : ServerState) (msg : ClientMsg),
      tilesInBounds st.rows st.cols st.lava_tiles →
      tilesInBounds st.rows st.cols (handleMessage st msg).lava_tiles) ∧
    (∀ (st : ServerState) (now : ℚ) (rand : Nat → Nat), 0 < st.rows → 0 < st.cols →
      tilesInBounds st.rows st.cols st.lava_tiles →
      tilesInBounds st.rows st.cols (maybeDemoTiles st now rand).lava_tiles) := by
  refine ⟨?_, ?_, ?_⟩
  · intro rows cols p hp
    simp at hp
  · intro st msg hb
    cases msg with
    | tile_update incoming =>
      simp only [handleMessage]
      cases h : collectTiles st.rows st.cols incoming with
      | none => exact hb
      | some S =>
        exact collectTiles_bounds st.rows st.cols incoming ∅
          (by intro p hp; simp at hp) S (by rw [collectTiles] at h; exact h)
    | restart_game => exact hb
    | other => exact hb
  · intro st now rand hr hc hb
    rw [maybeDemoTiles]
    split_ifs with h1 h2
    · exact hb
    · exact demoFill_bounds st.rows st.cols st.demo_tiles_num rand hr hc
    · exact hb

/-- C9 witness: on the sample 8×8 server with an empty HazardSet, the demo
auto-fill leaves the set within bounds. -/
theorem claim_C9_witness :
    tilesInBounds (sampleServer ∅).rows (sampleServer ∅).cols
      (maybeDemoTiles (sampleServer ∅) 10 (fun _ => 0)).lava_tiles :=
  claim_C9_thm.2.2 (sampleServer ∅) 10 (fun _ => 0) (by decide) (by decide)
    (by intro p hp; simp [sampleServer] at hp)

/-- C10 (amended): the demo auto-fill is skipped (the whole state is
unchanged) whenever the HazardSet is non-empty; when it does fill, it
replaces the HazardSet by `demo_tiles_num` random draws collected into a
set — at most `tiles_per_interval` distinct in-bounds cells, and fewer when
draws repeat, not always exactly `tiles_per_interval`. -/
theorem claim_C10_thm :
    (∀ (st : ServerState) (now : ℚ) (rand : Nat → Nat),
      st.lava_tiles ≠ ∅ → maybeDemoTiles st now rand = st) ∧
    (∀ (st : ServerState) (now : ℚ) (rand : Nat → Nat),
      (maybeDemoTiles st now rand).lava_tiles = st.lava_tiles ∨
      ((maybeDemoTiles st now rand).lava_tiles =
          demoFill st.rows st.cols st.demo_tiles_num rand ∧
        st.lava_tiles = ∅)) ∧
    (∀ (rows cols n : Nat) (rand : Nat → Nat),
      (demoFill rows cols n rand).card ≤ n) ∧
    (∀ (rows cols n : Nat) (rand : Nat → Nat), 0 < rows → 0 < cols →
      tilesInBounds rows cols (demoFill rows cols n rand)) := by
  refine ⟨?_, ?_, ?_, demoFill_bounds⟩
  · intro st now rand h
    rw [maybeDemoTiles]
    split_ifs with h1 h2
    · rfl
    · exfalso
      simp only [Bool.and_eq_true, decide_eq_true_eq] at h2
      exact h h2.2
    · rfl
  · intro st now rand
    rw [maybeDemoTiles]
    split_ifs with h1 h2
    · exact Or.inl rfl
    · simp only [Bool.and_eq_true, decide_eq_true_eq] at h2
      exact Or.inr ⟨rfl, h2.2⟩
    · exact Or.inl rfl
  · intro rows cols n rand
    rw [demoFill]
    have h := demoFillAux_card rows cols rand (List.range n) ∅
    simpa using h

/-- C10 witness: on the sample server whose HazardSet already holds (0,0),
the demo auto-fill changes nothing. -/
theorem claim_C10_witness :
    maybeDemoTiles (sampleServer {((0 : Int), (0 : Int))}) 10 (fun _ => 0) =
      sampleServer {((0 : Int), (0 : Int))} :=
  claim_C10_thm.1 (sampleServer {((0 : Int), (0 : Int))}) 10 (fun _ => 0) (by decide)

/-- C10 counterexample: on the sample server (demo enabled, a client
connected, interval elapsed, empty HazardSet, `tiles_per_interval = 6`), a
random stream that repeats the same draw fills the HazardSet with exactly
one cell, not `tiles_per_interval` cells. -/
theorem claim_C10_counterexample :
    (maybeDemoTiles (sampleServer ∅) 10 (fun _ => 0)).lava_tiles.card = 1 ∧
    (sampleServer ∅).demo_tiles_num = 6 := by
  have hlt : (sampleServer ∅).demo_interval < (10 : ℚ) - (sampleServer ∅).last_demo_time := by
    show (2 : ℚ) < 10 - 0
    norm_num
  have h : maybeDemoTiles (sampleServer ∅) 10 (fun _ => 0) =
      { sampleServer ∅ with
          lava_tiles := demoFill 8 8 6 (fun _ => 0), last_demo_time := 10 } := by
    rw [maybeDemoTiles,
      if_neg (by simp [sampleServer]),
      if_pos (by simp only [Bool.and_eq_true, decide_eq_true_eq]
                 exact ⟨⟨rfl, hlt⟩, rfl⟩)]
    rfl
  rw [h]
  exact ⟨by decide, rfl⟩

/-- `observe` only touches the smoother map: `game_active` rides along. -/
theorem serverObserve_game_active (st : ServerState) (pid : Nat) (foot : Foot)
    (row col : Int) (il : Bool) :
    (serverObserve st pid foot row col il).1.game_active = st.game_active := rfl

/-- `observe` only touches the smoother map: the cooldown rides along. -/
theorem serverObserve_cooldown (st : ServerState) (pid : Nat) (foot : Foot)
    (row col : Int) (il : Bool) :
    (serverObserve st pid foot row col il).1.collision_cooldown = st.collision_cooldown := rfl

/-- `observe` only touches the smoother map: the last event time rides along. -/
theorem serverObserve_last_time (st : ServerState) (pid : Nat) (foot : Foot)
    (row col : Int) (il : Bool) :
    (serverObserve st pid foot row col il).1.last_collision_time = st.last_collision_time := rfl

/-- `observe` only touches the smoother map: the threshold `k` rides along. -/
theorem serverObserve_k (st : ServerState) (pid : Nat) (foot : Foot)
    (row col : Int) (il : Bool) :
    (serverObserve st pid foot row col il).1.smoother_k = st.smoother_k := rfl

/-- A single foot check never changes the session-active flag. -/
theorem checkFoot_game_active (st : ServerState) (now : ℚ) (pid : Nat) (foot : Foot)
    (grid : Int × Int) :
    (checkFoot st now pid foot grid).1.game_active = st.game_active := by
  simp only [checkFoot]
  split_ifs <;> rfl

/-- A person's two foot checks never change the session-active flag. -/
theorem checkPerson_game_active (st : ServerState) (now : ℚ) (p : PersonFeet) :
    (checkPerson st now p).1.game_active = st.game_active := by
  simp only [checkPerson]
  rw [checkFoot_game_active, checkFoot_game_active]

/-- The collision fold never changes the session-active flag. -/
theorem checkLavaAux_game_active (now : ℚ) (ps : List PersonFeet)
    (acc : ServerState × List LavaEvent) :
    (ps.foldl (fun acc p =>
        let r := checkPerson acc.1 now p
        (r.1, acc.2 ++ r.2)) acc).1.game_active = acc.1.game_active := by
  induction ps generalizing acc with
  | nil => rfl
  | cons p rest ih =>
    simp only [List.foldl_cons]
    rw [ih]
    exact checkPerson_game_active acc.1 now p

/-- Person 0's left foot on hazard cell (0,0): debouncer triggers (k = 1),
the cooldown (last event at 0, now 10) has elapsed, so the event fires. -/
theorem checkFoot_demo_fires :
    checkFoot demoServer 10 0 Foot.left (0, 0) = (stA, Option.some evA) := by
  simp only [checkFoot]
  split_ifs with h1 h2
  · decide
  · exfalso
    apply h2
    show (2 : ℚ) < 10 - 0
    norm_num
  · exact absurd rfl h1

/-- Person 0's right foot on safe cell (5,5): no trigger, no event. -/
theorem checkFoot_demo_safe1 :
    checkFoot stA 10 0 Foot.right (5, 5) = (stB, Option.none) := by
  simp only [checkFoot]
  split_ifs with h1 h2
  · exact absurd h1 (by decide)
  · exact absurd h1 (by decide)
  · decide

/-- Person 1's left foot on hazard cell (1,1): the debouncer triggers, but
person 0's event at time 10 started the global cooldown, so no event. -/
theorem checkFoot_demo_blocked :
    checkFoot stB 10 1 Foot.left (1, 1) = (stC, Option.none) := by
  simp only [checkFoot]
  split_ifs with h1 h2
  · exact absurd (show (2 : ℚ) < 10 - 10 from h2) (by norm_num)
  · decide
  · exact absurd rfl h1

/-- Person 1's right foot on safe cell (6,6): no trigger, no event. -/
theorem checkFoot_demo_safe2 :
    checkFoot stC 10 1 Foot.right (6, 6) = (stD, Option.none) := by
  simp only [checkFoot]
  split_ifs with h1 h2
  · exact absurd h1 (by decide)
  · exact absurd h1 (by decide)
  · decide

/-- C5: a per-foot collision event is produced iff the debouncer returned
true AND the cell is a hazard AND the session is active AND the time since
the last (global) event exceeds the cooldown; when it fires, the event
carries `consecutiveFrames = k` and the state records the collision flag,
message and `lastEventTime = now` while `game_active` is left untouched;
`game_active` is never changed by the whole collision pass; and in the
two-person scenario the second person's trigger inside the first person's
cooldown window produces no event: exactly one event total. -/
theorem claim_C5_thm :
    (∀ (st : ServerState) (now : ℚ) (pid : Nat) (foot : Foot) (grid : Int × Int),
      (checkFoot st now pid foot grid).2.isSome = true ↔
        ((serverObserve st pid foot grid.1 grid.2
            (footHazard st.rows st.cols st.lava_tiles grid.1 grid.2)).2 = true ∧
         footHazard st.rows st.cols st.lava_tiles grid.1 grid.2 = true ∧
         st.game_active = true ∧
         st.collision_cooldown < now - st.last_collision_time)) ∧
    (∀ (st : ServerState) (now : ℚ) (pid : Nat) (foot : Foot) (grid : Int × Int)
        (ev : LavaEvent),
      (checkFoot st now pid foot grid).2 = Option.some ev →
      ev.person_id = pid ∧ ev.foot = foot ∧ ev.grid = grid ∧
      ev.consecutive_frames = st.smoother_k ∧
      (checkFoot st now pid foot grid).1.collision_detected = true ∧
      (checkFoot st now pid foot grid).1.collision_message =
        collisionMessage pid grid.1 grid.2 ∧
      (checkFoot st now pid foot grid).1.last_collision_time = now ∧
      (checkFoot st now pid foot grid).1.game_active = st.game_active) ∧
    (∀ (st : ServerState) (now : ℚ) (ps : List PersonFeet),
      (checkLavaCollisions st now ps).1.game_active = st.game_active) ∧
    (checkLavaCollisions demoServer 10 demoPersons).2 = [evA] := by
  refine ⟨?_, ?_, ?_, ?_⟩
  · intro st now pid foot grid
    simp only [checkFoot, serverObserve_game_active, serverObserve_cooldown,
      serverObserve_last_time]
    split_ifs with h1 h2
    · simp only [Option.isSome_some, true_iff]
      simp only [Bool.and_eq_true] at h1
      exact ⟨h1.1.1, h1.1.2, h1.2, h2⟩
    · simp only [Option.isSome_none, Bool.false_eq_true, false_iff]
      rintro ⟨-, -, -, hd⟩
      exact h2 hd
    · simp only [Option.isSome_none, Bool.false_eq_true, false_iff]
      rintro ⟨ha, hb, hc, -⟩
      exact h1 (by rw [Bool.and_eq_true, Bool.and_eq_true]; exact ⟨⟨ha, hb⟩, hc⟩)
  · intro st now pid foot grid ev h
    simp only [checkFoot, serverObserve_game_active, serverObserve_cooldown,
      serverObserve_last_time, serverObserve_k] at h ⊢
    split_ifs at h ⊢ with h1 h2
    · simp only [Option.some.injEq] at h
      subst h
      exact ⟨rfl, rfl, rfl, rfl, rfl, rfl, rfl, rfl⟩
  · intro st now ps
    rw [checkLavaCollisions]
    exact checkLavaAux_game_active now ps (st, [])
  · have hp0 : checkPerson demoServer 10 ⟨0, (0, 0), (5, 5)⟩ = (stB, [evA]) := by
      simp only [checkPerson, checkFoot_demo_fires, checkFoot_demo_safe1]
      rfl
    have hp1 : checkPerson stB 10 ⟨1, (1, 1), (6, 6)⟩ = (stD, []) := by
      simp only [checkPerson, checkFoot_demo_blocked, checkFoot_demo_safe2]
      rfl
    simp only [checkLavaCollisions, demoPersons, List.foldl_cons, List.foldl_nil,
      hp0, hp1, List.nil_append, List.append_nil]

/-- C5 witness: when person 0's left-foot check on the demo server fires,
the produced event and state updates are exactly as claimed. -/
theorem claim_C5_witness :
    evA.person_id = 0 ∧ evA.foot = Foot.left ∧ evA.grid = (0, 0) ∧
    evA.consecutive_frames = demoServer.smoother_k ∧
    (checkFoot demoServer 10 0 Foot.left (0, 0)).1.collision_detected = true ∧
    (checkFoot demoServer 10 0 Foot.left (0, 0)).1.collision_message =
      collisionMessage 0 (0 : Int) (0 : Int) ∧
    (checkFoot demoServer 10 0 Foot.left (0, 0)).1.last_collision_time = 10 ∧
    (checkFoot demoServer 10 0 Foot.left (0, 0)).1.game_active =
      demoServer.game_active :=
  claim_C5_thm.2.1 demoServer 10 0 Foot.left (0, 0) evA
    (by rw [checkFoot_demo_fires])

/-- Registering `ds` detections advances `next_id` by `ds.length`. -/
theorem registerDets_next_id (ds : List Detection) (st : TrackerState) :
    (registerDets st ds).next_id = st.next_id + ds.length := by
  induction ds generalizing st with
  | nil => rfl
  | cons d rest ih =>
    show (registerDets (registerOne st d) rest).next_id = _
    rw [ih]
    simp only [registerOne, List.length_cons]
    omega

/-- Registering `ds` detections appends `ds.length` tracks. -/
theorem registerDets_tracks_len (ds : List Detection) (st : TrackerState) :
    (registerDets st ds).tracks.length = st.tracks.length + ds.length := by
  induction ds generalizing st with
  | nil => rfl
  | cons d rest ih =>
    show (registerDets (registerOne st d) rest).tracks.length = _
    rw [ih]
    simp only [registerOne, List.length_append, List.length_cons, List.length_nil]
    omega

/-- Registration never removes or alters an existing track. -/
theorem registerDets_mem (ds : List Detection) (st : TrackerState) (e : TrackEntry)
    (h : e ∈ st.tracks) : e ∈ (registerDets st ds).tracks := by
  induction ds generalizing st with
  | nil => exact h
  | cons d rest ih =>
    show e ∈ (registerDets (registerOne st d) rest).tracks
    exact ih _ (by simp only [registerOne]; exact List.mem_append_left _ h)

/-- Every track after registration is an old track or a brand-new one whose
id was freshly drawn from `[next_id, next_id + ds.length)`. -/
theorem registerDets_mem_char (ds : List Detection) (st : TrackerState) (e : TrackEntry)
    (h : e ∈ (registerDets st ds).tracks) :
    e ∈ st.tracks ∨ (st.next_id ≤ e.id ∧ e.id < st.next_id + ds.length) := by
  induction ds generalizing st with
  | nil => exact Or.inl h
  | cons d rest ih =>
    rcases ih (registerOne st d) h with h1 | h1
    · simp only [registerOne, List.mem_append, List.mem_singleton] at h1
      rcases h1 with h1 | rfl
      · exact Or.inl h1
      · exact Or.inr ⟨le_refl _, by simp⟩
    · simp only [registerOne] at h1
      exact Or.inr ⟨by omega, by simp only [List.length_cons]; omega⟩

/-- The ids after one registration are the old ids plus the fresh id. -/
theorem registerOne_ids (st : TrackerState) (d : Detection) :
    (registerOne st d).tracks.map (fun e => e.id) =
      st.tracks.map (fun e => e.id) ++ [st.next_id] := by
  simp [registerOne]

/-- Registration preserves well-formedness: fresh ids stay below the new
`next_id` and never collide with existing ones. -/
theorem registerDets_WF (ds : List Detection) (st : TrackerState)
    (h : TrackerWF st) : TrackerWF (registerDets st ds) := by
  induction ds generalizing st with
  | nil => exact h
  | cons d rest ih =>
    refine ih (registerOne st d) ⟨?_, ?_⟩
    · intro e he
      simp only [registerOne, List.mem_append, List.mem_singleton] at he
      rcases he with he | rfl
      · have := h.1 e he
        simp only [registerOne]
        omega
      · simp [registerOne]
    · rw [trackIds, registerOne_ids]
      rw [List.nodup_append]
      refine ⟨h.2, List.nodup_singleton _, ?_⟩
      intro a ha hb
      simp only [List.mem_singleton] at hb
      subst hb
      rcases List.mem_map.mp ha with ⟨e, he, hid⟩
      exact absurd (hid ▸ h.1 e he) (lt_irrefl _)

/-- The zero-detections aging pass is exactly: increment every counter,
keep the entries whose new counter is within the threshold. -/
theorem ageAll_eq (maxDis : Nat) (tr : List TrackEntry) :
    ageAll maxDis tr = (tr.filter (fun e => decide (e.disappeared + 1 ≤ maxDis))).map
      (fun e => { e with disappeared := e.disappeared + 1 }) := by
  induction tr with
  | nil => rfl
  | cons e rest ih =>
    rw [ageAll]
    split_ifs with h
    · have hc : decide (e.disappeared + 1 ≤ maxDis) = false := by
        simp only [decide_eq_false_iff_not]
        omega
      rw [List.filter_cons, hc, if_neg (by simp)]
      exact ih
    · have hc : decide (e.disappeared + 1 ≤ maxDis) = true := by
        simp only [decide_eq_true_eq]
        omega
      rw [List.filter_cons, hc, if_pos rfl, List.map_cons, ih]

/-- Every survivor of the aging pass is an old track with its counter
incremented. -/
theorem ageAll_mem (maxDis : Nat) (tr : List TrackEntry) (e' : TrackEntry)
    (h : e' ∈ ageAll maxDis tr) :
    ∃ e ∈ tr, e'.id = e.id ∧ e'.disappeared = e.disappeared + 1 := by
  rw [ageAll_eq] at h
  rcases List.mem_map.mp h with ⟨e, he, rfl⟩
  exact ⟨e, (List.mem_filter.mp he).1, rfl, rfl⟩

/-- The aging pass only deletes entries: the surviving id list is a sublist. -/
theorem ageAll_ids_sublist (maxDis : Nat) (tr : List TrackEntry) :
    List.Sublist ((ageAll maxDis tr).map (fun e => e.id))
      (tr.map (fun e => e.id)) := by
  induction tr with
  | nil => simp [ageAll]
  | cons e rest ih =>
    rw [ageAll]
    split_ifs with h
    · exact ih.cons e.id
    · simpa using ih.cons₂ e.id

/-- A row index not among the matched rows has no binding in the pair list. -/
theorem lookup_eq_none (l : List (Nat × Nat)) (a : Nat)
    (h : (l.map Prod.fst).contains a = false) : List.lookup a l = Option.none := by
  induction l with
  | nil => rfl
  | cons kv rest ih =>
    simp only [List.map_cons, List.contains_cons, Bool.or_eq_false_iff] at h
    simp only [List.lookup, h.1, ih h.2]

/-- Applying matches never changes the length of the track list. -/
theorem applyMatches_length (pairs : List (Nat × Nat)) (dets : List Detection) :
    ∀ (i : Nat) (tr : List TrackEntry),
      (applyMatchesAux pairs dets i tr).length = tr.length := by
  intro i tr
  induction tr generalizing i with
  | nil => rfl
  | cons e rest ih =>
    rw [applyMatchesAux]
    simp only [List.length_cons, ih (i + 1)]

/-- Applying matches keeps every track's id at its position. -/
theorem applyMatches_ids (pairs : List (Nat × Nat)) (dets : List Detection) :
    ∀ (i : Nat) (tr : List TrackEntry),
      (applyMatchesAux pairs dets i tr).map (fun e => e.id) =
        tr.map (fun e => e.id) := by
  intro i tr
  induction tr generalizing i with
  | nil => rfl
  | cons e rest ih =>
    rw [applyMatchesAux]
    cases h : List.lookup i pairs <;> simp [h, ih (i + 1), matchedEntry]

/-- Position-wise description of the matched update: each entry either takes
its matched detection's data with a zero counter, or is left untouched. -/
theorem applyMatches_getElem? (pairs : List (Nat × Nat)) (dets : List Detection) :
    ∀ (i j : Nat) (tr : List TrackEntry),
      (applyMatchesAux pairs dets i tr)[j]? =
        Option.map (fun e =>
          match List.lookup (i + j) pairs with
          | Option.some c => matchedEntry dets c e
          | Option.none => e) tr[j]? := by
  intro i j tr
  induction tr generalizing i j with
  | nil => simp [applyMatchesAux]
  | cons e rest ih =>
    rw [applyMatchesAux]
    cases j with
    | zero =>
      simp only [List.getElem?_cons_zero, Option.map_some', Nat.add_zero]
    | succ j' =>
      simp only [List.getElem?_cons_succ]
      rw [ih (i + 1) j']
      have : i + 1 + j' = i + (j' + 1) := by omega
      rw [this]

/-- An unmatched position is completely untouched by the matched update. -/
theorem applyMatches_getElem?_unmatched (pairs : List (Nat × Nat))
    (dets : List Detection) (j : Nat) (tr : List TrackEntry)
    (h : (pairs.map Prod.fst).contains j = false) :
    (applyMatchesAux pairs dets 0 tr)[j]? = tr[j]? := by
  rw [applyMatches_getElem? pairs dets 0 j tr, Nat.zero_add,
    lookup_eq_none pairs j h]
  cases tr[j]? <;> rfl

/-- Ids surviving the unmatched-aging pass come from the input list. -/
theorem ageUnmatched_ids_subset (mr : List Nat) (maxD : Nat) :
    ∀ (i : Nat) (tr : List TrackEntry) (e' : TrackEntry),
      e' ∈ ageUnmatchedAux mr maxD i tr → e'.id ∈ tr.map (fun e => e.id) := by
  intro i tr
  induction tr generalizing i with
  | nil => intro e' h; simp [ageUnmatchedAux] at h
  | cons e rest ih =>
    intro e' h
    rw [ageUnmatchedAux] at h
    split_ifs at h with h1 h2
    · rcases List.mem_cons.mp h with rfl | h
      · exact List.mem_cons_self _ _
      · exact List.mem_cons_of_mem _ (ih (i + 1) e' h)
    · exact List.mem_cons_of_mem _ (ih (i + 1) e' h)
    · rcases List.mem_cons.mp h with rfl | h
      · exact List.mem_cons_self _ _
      · exact List.mem_cons_of_mem _ (ih (i + 1) e' h)

/-- The unmatched-aging pass only deletes entries: ids form a sublist. -/
theorem ageUnmatched_ids_sublist (mr : List Nat) (maxD : Nat) :
    ∀ (i : Nat) (tr : List TrackEntry),
      List.Sublist ((ageUnmatchedAux mr maxD i tr).map (fun e => e.id))
        (tr.map (fun e => e.id)) := by
  intro i tr
  induction tr generalizing i with
  | nil => simp [ageUnmatchedAux]
  | cons e rest ih =>
    rw [ageUnmatchedAux]
    split_ifs with h1 h2
    · simpa using (ih (i + 1)).cons₂ e.id
    · exact (ih (i + 1)).cons e.id
    · simpa using (ih (i + 1)).cons₂ e.id

/-- An unmatched track whose incremented counter stays within the threshold
survives the aging pass with exactly that incremented counter. -/
theorem ageUnmatched_kept (mr : List Nat) (maxD : Nat) :
    ∀ (i j : Nat) (tr : List TrackEntry) (e : TrackEntry),
      tr[j]? = Option.some e → mr.contains (i + j) = false →
      e.disappeared + 1 ≤ maxD →
      ∃ e' ∈ ageUnmatchedAux mr maxD i tr,
        e'.id = e.id ∧ e'.disappeared = e.disappeared + 1 := by
  intro i j tr
  induction tr generalizing i j with
  | nil => intro e h; simp at h
  | cons e0 rest ih =>
    intro e hj hc hle
    cases j with
    | zero =>
      simp only [List.getElem?_cons_zero, Option.some.injEq] at hj
      subst hj
      rw [Nat.add_zero] at hc
      rw [ageUnmatchedAux, if_neg (by rw [hc]; exact Bool.false_ne_true),
        if_neg (by omega)]
      exact ⟨_, List.mem_cons_self _ _, rfl, rfl⟩
    | succ j' =>
      simp only [List.getElem?_cons_succ] at hj
      have hc' : mr.contains (i + 1 + j') = false := by
        have : i + 1 + j' = i + (j' + 1) := by omega
        rw [this]
        exact hc
      obtain ⟨e', he', h1, h2⟩ := ih (i + 1) j' e hj hc' hle
      rw [ageUnmatchedAux]
      split_ifs with hb1 hb2
      · exact ⟨e', List.mem_cons_of_mem _ he', h1, h2⟩
      · exact ⟨e', he', h1, h2⟩
      · exact ⟨e', List.mem_cons_of_mem _ he', h1, h2⟩

/-- An unmatched track whose incremented counter exceeds the threshold is
deregistered: its id is gone from the output (ids being distinct). -/
theorem ageUnmatched_dropped (mr : List Nat) (maxD : Nat) :
    ∀ (i j : Nat) (tr : List TrackEntry) (e : TrackEntry),
      (tr.map (fun e => e.id)).Nodup →
      tr[j]? = Option.some e → mr.contains (i + j) = false →
      maxD < e.disappeared + 1 →
      ∀ e' ∈ ageUnmatchedAux mr maxD i tr, e'.id ≠ e.id := by
  intro i j tr
  induction tr generalizing i j with
  | nil => intro e _ h; simp at h
  | cons e0 rest ih =>
    intro e hnd hj hc hgt e' he'
    simp only [List.map_cons, List.nodup_cons] at hnd
    cases j with
    | zero =>
      simp only [List.getElem?_cons_zero, Option.some.injEq] at hj
      subst hj
      rw [Nat.add_zero] at hc
      rw [ageUnmatchedAux, if_neg (by rw [hc]; exact Bool.false_ne_true),
        if_pos (by omega)] at he'
      intro hid
      exact hnd.1 (hid ▸ ageUnmatched_ids_subset mr maxD (i + 1) rest e' he')
    | succ j' =>
      simp only [List.getElem?_cons_succ] at hj
      have hmem : e.id ∈ rest.map (fun x => x.id) :=
        List.mem_map_of_mem _ (List.getElem?_mem hj)
      have hc' : mr.contains (i + 1 + j') = false := by
        have : i + 1 + j' = i + (j' + 1) := by omega
        rw [this]
        exact hc
      rw [ageUnmatchedAux] at he'
      split_ifs at he' with hb1 hb2
      · rcases List.mem_cons.mp he' with rfl | he'
        · intro hid
          exact hnd.1 (hid ▸ hmem)
        · exact ih (i + 1) j' e hnd.2 hj hc' hgt e' he'
      · exact ih (i + 1) j' e hnd.2 hj hc' hgt e' he'
      · rcases List.mem_cons.mp he' with rfl | he'
        · intro hid
          simp only [TrackEntry.mk.injEq] at hid
          exact hnd.1 (hid ▸ hmem)
        · exact ih (i + 1) j' e hnd.2 hj hc' hgt e' he'

/-- C4: `update` with zero detections ages every live track (incrementing
its counter and deregistering it once the counter exceeds
`max_disappeared`), with no matching attempted; with strictly more
detections than live tracks, the unmatched-track aging branch is skipped —
no track is removed, no counter incremented (matched counters reset to 0) —
and every unmatched detection is registered as a brand-new track; and with
at least as many tracks as detections, no registration happens and each
unmatched track's counter is incremented, the track surviving exactly when
the new counter stays within `max_disappeared`. -/
theorem claim_C4_thm :
    (∀ st : TrackerState,
      (trackerUpdate st []).tracks = (st.tracks.filter
          (fun e => decide (e.disappeared + 1 ≤ st.max_disappeared))).map
        (fun e => { e with disappeared := e.disappeared + 1 }) ∧
      (trackerUpdate st []).next_id = st.next_id) ∧
    (∀ (st : TrackerState) (dets : List Detection),
      st.tracks ≠ [] → st.tracks.length < dets.length →
      (∀ e ∈ st.tracks, ∃ e' ∈ (trackerUpdate st dets).tracks,
        e'.id = e.id ∧ (e'.disappeared = 0 ∨ e'.disappeared = e.disappeared)) ∧
      (trackerUpdate st dets).next_id = st.next_id +
        (unmatchedDetIdxs (greedyMatch st.tracks dets st.max_distance_sq)
          dets.length).length ∧
      (trackerUpdate st dets).tracks.length = st.tracks.length +
        (unmatchedDetIdxs (greedyMatch st.tracks dets st.max_distance_sq)
          dets.length).length) ∧
    (∀ (st : TrackerState) (dets : List Detection) (e : TrackEntry) (j : Nat),
      dets ≠ [] → st.tracks ≠ [] → dets.length ≤ st.tracks.length →
      (st.tracks.map (fun e => e.id)).Nodup →
      st.tracks[j]? = Option.some e →
      ((greedyMatch st.tracks dets st.max_distance_sq).map
        Prod.fst).contains j = false →
      (trackerUpdate st dets).next_id = st.next_id ∧
      (e.disappeared + 1 ≤ st.max_disappeared →
        ∃ e' ∈ (trackerUpdate st dets).tracks,
          e'.id = e.id ∧ e'.disappeared = e.disappeared + 1) ∧
      (st.max_disappeared < e.disappeared + 1 →
        ∀ e' ∈ (trackerUpdate st dets).tracks, e'.id ≠ e.id)) := by
  refine ⟨?_, ?_, ?_⟩
  · intro st
    have h : trackerUpdate st [] =
        { st with tracks := ageAll st.max_disappeared st.tracks } := by
      simp [trackerUpdate]
    rw [h]
    exact ⟨ageAll_eq st.max_disappeared st.tracks, rfl⟩
  · intro st dets hT hlen
    have hD : dets ≠ [] := by
      intro h
      subst h
      simp at hlen
    have hDe : ¬(dets.isEmpty = true) := by simp [List.isEmpty_iff, hD]
    have hTe : ¬(st.tracks.isEmpty = true) := by simp [List.isEmpty_iff, hT]
    simp only [trackerUpdate]
    rw [if_neg hDe, if_neg hTe, if_neg (by omega)]
    refine ⟨?_, ?_, ?_⟩
    · intro e he
      obtain ⟨j, hj⟩ := List.getElem?_of_mem he
      have h1 := applyMatches_getElem?
        (greedyMatch st.tracks dets st.max_distance_sq) dets 0 j st.tracks
      rw [hj] at h1
      simp only [Nat.zero_add, Option.map_some'] at h1
      cases hx : List.lookup j (greedyMatch st.tracks dets st.max_distance_sq) with
      | some c =>
        rw [hx] at h1
        exact ⟨matchedEntry dets c e,
          registerDets_mem _ _ _ (List.getElem?_mem h1), rfl, Or.inl rfl⟩
      | none =>
        rw [hx] at h1
        exact ⟨e, registerDets_mem _ _ _ (List.getElem?_mem h1), rfl, Or.inr rfl⟩
    · rw [registerDets_next_id, List.length_map]
    · rw [registerDets_tracks_len, List.length_map]
      have := applyMatches_length
        (greedyMatch st.tracks dets st.max_distance_sq) dets 0 st.tracks
      show (applyMatchesAux _ dets 0 st.tracks).length + _ = _
      omega
  · intro st dets e j hD hT hlen hnd hj hcontains
    have hDe : ¬(dets.isEmpty = true) := by simp [List.isEmpty_iff, hD]
    have hTe : ¬(st.tracks.isEmpty = true) := by simp [List.isEmpty_iff, hT]
    simp only [trackerUpdate]
    rw [if_neg hDe, if_neg hTe, if_pos hlen]
    have htr1 : (applyMatchesAux (greedyMatch st.tracks dets st.max_distance_sq)
        dets 0 st.tracks)[j]? = Option.some e := by
      rw [applyMatches_getElem?_unmatched _ dets j st.tracks hcontains, hj]
    refine ⟨rfl, ?_, ?_⟩
    · intro hle
      obtain ⟨e', he', h1, h2⟩ := ageUnmatched_kept
        ((greedyMatch st.tracks dets st.max_distance_sq).map Prod.fst)
        st.max_disappeared 0 j _ e htr1 (by rwa [Nat.zero_add]) hle
      exact ⟨e', he', h1, h2⟩
    · intro hgt e' he'
      have hnd1 : ((applyMatchesAux (greedyMatch st.tracks dets st.max_distance_sq)
          dets 0 st.tracks).map (fun x => x.id)).Nodup := by
        rw [applyMatches_ids]
        exact hnd
      exact ageUnmatched_dropped
        ((greedyMatch st.tracks dets st.max_distance_sq).map Prod.fst)
        st.max_disappeared 0 j _ e hnd1 htr1 (by rwa [Nat.zero_add]) hgt e' he'

/-- C4 witness: one live track, two detections — the aging branch is
skipped and the unmatched detections are registered, advancing `next_id`
by their number. -/
theorem claim_C4_witness :
    (trackerUpdate sampleTracker sampleDets2).next_id = sampleTracker.next_id +
      (unmatchedDetIdxs (greedyMatch sampleTracker.tracks sampleDets2
        sampleTracker.max_distance_sq) sampleDets2.length).length :=
  (claim_C4_thm.2.1 sampleTracker sampleDets2 (by decide) (by decide)).2.1

/-- C7: track ids start at 0 and are unique, monotonically assigned, and
never reused: the initial tracker is well-formed with `next_id = 0`; every
update preserves well-formedness (all live ids below `next_id`, ids
distinct) and never decreases `next_id`; and any id in the result below the
old `next_id` belonged to a pre-existing track — so a deregistered id (no
longer a track id, forever below the monotone `next_id`) can never be
assigned again. -/
theorem claim_C7_thm :
    (∀ (maxDis : Nat) (maxSq : ℚ),
      (initTracker maxDis maxSq).next_id = 0 ∧ TrackerWF (initTracker maxDis maxSq)) ∧
    (∀ (st : TrackerState) (dets : List Detection), TrackerWF st →
      TrackerWF (trackerUpdate st dets) ∧
      st.next_id ≤ (trackerUpdate st dets).next_id ∧
      (∀ e' ∈ (trackerUpdate st dets).tracks, e'.id < st.next_id →
        ∃ e ∈ st.tracks, e.id = e'.id)) := by
  constructor
  · intro maxDis maxSq
    refine ⟨rfl, ?_, ?_⟩
    · intro e he
      simp [initTracker] at he
    · simp [initTracker, trackIds]
  · intro st dets hwf
    by_cases hD : dets.isEmpty = true
    · rw [trackerUpdate, if_pos hD]
      refine ⟨⟨?_, ?_⟩, le_refl _, ?_⟩
      · intro e' he'
        obtain ⟨e, he, hid, -⟩ := ageAll_mem st.max_disappeared st.tracks e' he'
        exact hid ▸ hwf.1 e he
      · exact hwf.2.sublist (ageAll_ids_sublist st.max_disappeared st.tracks)
      · intro e' he' hlt
        obtain ⟨e, he, hid, -⟩ := ageAll_mem st.max_disappeared st.tracks e' he'
        exact ⟨e, he, hid.symm⟩
    · by_cases hT : st.tracks.isEmpty = true
      · rw [trackerUpdate, if_neg hD, if_pos hT]
        refine ⟨registerDets_WF dets st hwf, ?_, ?_⟩
        · rw [registerDets_next_id]
          omega
        · intro e' he' hlt
          rcases registerDets_mem_char dets st e' he' with h | h
          · exact ⟨e', h, rfl⟩
          · omega
      · simp only [trackerUpdate]
        rw [if_neg hD, if_neg hT]
        have hids : (applyMatchesAux (greedyMatch st.tracks dets st.max_distance_sq)
            dets 0 st.tracks).map (fun e => e.id) = st.tracks.map (fun e => e.id) :=
          applyMatches_ids _ dets 0 st.tracks
        split_ifs with hlen
        · refine ⟨⟨?_, ?_⟩, le_refl _, ?_⟩
          · intro e' he'
            have h1 := ageUnmatched_ids_subset _ st.max_disappeared 0 _ e' he'
            rw [hids] at h1
            rcases List.mem_map.mp h1 with ⟨e, he, hid⟩
            exact hid ▸ hwf.1 e he
          · have hsub := ageUnmatched_ids_sublist
              ((greedyMatch st.tracks dets st.max_distance_sq).map Prod.fst)
              st.max_disappeared 0
              (applyMatchesAux (greedyMatch st.tracks dets st.max_distance_sq)
                dets 0 st.tracks)
            rw [hids] at hsub
            exact hwf.2.sublist hsub
          · intro e' he' hlt
            have h1 := ageUnmatched_ids_subset _ st.max_disappeared 0 _ e' he'
            rw [hids] at h1
            rcases List.mem_map.mp h1 with ⟨e, he, hid⟩
            exact ⟨e, he, hid⟩
        · have hwf1 : TrackerWF { st with
              tracks := applyMatchesAux (greedyMatch st.tracks dets st.max_distance_sq)
                dets 0 st.tracks } := by
            constructor
            · intro e1 h1
              have h2 : e1.id ∈ st.tracks.map (fun e => e.id) := by
                rw [← hids]
                exact List.mem_map_of_mem _ h1
              rcases List.mem_map.mp h2 with ⟨e, he, hid⟩
              exact hid ▸ hwf.1 e he
            · show ((applyMatchesAux _ dets 0 st.tracks).map (fun e => e.id)).Nodup
              rw [hids]
              exact hwf.2
          refine ⟨registerDets_WF _ _ hwf1, ?_, ?_⟩
          · rw [registerDets_next_id]
            exact Nat.le_add_right _ _
          · intro e' he' hlt
            rcases registerDets_mem_char _ _ e' he' with h | h
            · have h2 : e'.id ∈ st.tracks.map (fun e => e.id) := by
                rw [← hids]
                exact List.mem_map_of_mem _ h
              rcases List.mem_map.mp h2 with ⟨e, he, hid⟩
              exact ⟨e, he, hid⟩
            · have h1 : st.next_id ≤ e'.id := h.1
              omega

/-- C7 witness: an update (here with zero detections) never decreases
`next_id` of a well-formed tracker. -/
theorem claim_C7_witness :
    sampleTracker.next_id ≤ (trackerUpdate sampleTracker []).next_id :=
  (claim_C7_thm.2 sampleTracker [] (by decide)).2.1

end FloorIsLava
